import Mathlib

/-!
Verification development for the drug-shortage ETL pipeline
(`src/etl/fetch_fda_data.py` and the episode model of the spec).

Texts are modelled as lists of characters, stores as lists of rows keyed
by an integer `id`, and the effectful pipeline as pure functions over an
explicit database state with boolean fault-injection flags standing for
the exception paths of the source.
-/

namespace DrugShortage

/-- Canonical availability statuses (§3 of the spec, return values of
`classify_availability_status`). -/
inductive Status where
  | available
  | limitedAvailability
  | notAvailable
  | discontinued
  | unclear
deriving DecidableEq, Repr

/-- Free text, as a list of characters. -/
abbrev Text := List Char

/-- Lower-casing of a text, mirroring Python `str.lower` on ASCII data. -/
def lowerText (s : Text) : Text := s.map Char.toLower

/-- Both-ends whitespace trimming, mirroring Python `str.strip()`. -/
def trimText (s : Text) : Text :=
  ((s.dropWhile Char.isWhitespace).reverse.dropWhile Char.isWhitespace).reverse

/-- Does `p` occur at the start of `s`? -/
def startsWithText : Text → Text → Bool
  | _, [] => true
  | [], _ :: _ => false
  | c :: s, d :: p => c == d && startsWithText s p

/-- Does `p` occur as a contiguous substring of `s`?  Mirrors Python
`p in s` on strings. -/
def hasSub : Text → Text → Bool
  | [], p => startsWithText [] p
  | c :: t, p => startsWithText (c :: t) p || hasSub t p

/-- Does any of the patterns occur in `s`?  Mirrors
`any(pattern in all_text for pattern in [...])`. -/
def hasAnyPat (pats : List Text) (s : Text) : Bool :=
  pats.any (fun p => hasSub s p)

/-- Substrings classified as `discontinued` (fetch_fda_data.py line 73). -/
def discontinuedPats : List Text :=
  ["discontinue", "discontinued"].map String.toList

/-- Substrings classified as `not available` (fetch_fda_data.py lines 77-82). -/
def notAvailablePats : List Text :=
  ["not available", "unavailable", "out of stock",
   "shortage", "backorder", "back order", "supply disruption",
   "manufacturing delay", "resupply tbd", "expected release",
   "next delivery", "estimated availability"].map String.toList

/-- Substrings classified as `limited availability`
(fetch_fda_data.py lines 86-89). -/
def limitedPats : List Text :=
  ["limited", "intermittent", "restricted", "allocated", "allocation",
   "allocating", "temporary shortage", "reduced supply",
   "under allocation"].map String.toList

/-- Substrings classified as `available` (fetch_fda_data.py lines 93-95). -/
def availablePats : List Text :=
  ["available", "in stock", "supply available", "shipping",
   "product available"].map String.toList

/-- Lookup of a trimmed availability text in the curated override mapping,
mirroring `availability_clean in self.availability_mapping`. -/
def lookupMapping (mapping : List (Text × Status)) (t : Text) : Option Status :=
  (mapping.find? (fun p => p.1 == t)).map (fun p => p.2)

/-- Keyword cascade of `classify_availability_status`
(fetch_fda_data.py lines 72-98), applied to the joined lower-cased text. -/
def keywordClassify (all_text : Text) : Status :=
  if hasAnyPat discontinuedPats all_text then .discontinued
  else if hasAnyPat notAvailablePats all_text then .notAvailable
  else if hasAnyPat limitedPats all_text then .limitedAvailability
  else if hasAnyPat availablePats all_text then .available
  else .unclear

/-- The joined text `' '.join([availability_text or '', related_info or '',
status or ''])` of fetch_fda_data.py lines 66-70. -/
def joinedFields (availability_text related_info status_text : Text) : Text :=
  availability_text ++ ' ' :: related_info ++ ' ' :: status_text

/-- Embedding of `OpenFDAETL.classify_availability_status`
(fetch_fda_data.py lines 55-98).  The curated CSV mapping is passed
explicitly; `if availability_text and availability_text.strip()` is the
non-emptiness test of the trimmed text. -/
def classify_availability_status (mapping : List (Text × Status))
    (availability_text related_info status_text : Text) : Status :=
  let cleaned := trimText availability_text
  match (if cleaned.isEmpty then none else lookupMapping mapping cleaned) with
  | some st => st
  | none =>
      keywordClassify (lowerText (joinedFields availability_text related_info status_text))

/-- UTF-8 encoding of one character. -/
def utf8Bytes (c : Char) : List ℕ :=
  let n := c.toNat
  if n < 128 then [n]
  else if n < 2048 then [192 + n / 64, 128 + n % 64]
  else if n < 65536 then [224 + n / 4096, 128 + (n / 64) % 64, 128 + n % 64]
  else [240 + n / 262144, 128 + (n / 4096) % 64, 128 + (n / 64) % 64, 128 + n % 64]

/-- UTF-8 encoding of a text, mirroring Python `str.encode()`. -/
def encodeUtf8 (s : Text) : List ℕ :=
  s.foldr (fun c acc => utf8Bytes c ++ acc) []

def M32 : ℕ := 4294967296

def add32 (a b : ℕ) : ℕ := (a + b) % M32

def rotl32 (x s : ℕ) : ℕ := ((x <<< s) % M32) ||| (x >>> (32 - s))

def not32 (x : ℕ) : ℕ := x ^^^ (M32 - 1)

/-- Per-round sine-derived constants of MD5. -/
def md5K : List ℕ :=
  [0xd76aa478, 0xe8c7b756, 0x242070db, 0xc1bdceee,
   0xf57c0faf, 0x4787c62a, 0xa8304613, 0xfd469501,
   0x698098d8, 0x8b44f7af, 0xffff5bb1, 0x895cd7be,
   0x6b901122, 0xfd987193, 0xa679438e, 0x49b40821,
   0xf61e2562, 0xc040b340, 0x265e5a51, 0xe9b6c7aa,
   0xd62f105d, 0x02441453, 0xd8a1e681, 0xe7d3fbc8,
   0x21e1cde6, 0xc33707d6, 0xf4d50d87, 0x455a14ed,
   0xa9e3e905, 0xfcefa3f8, 0x676f02d9, 0x8d2a4c8a,
   0xfffa3942, 0x8771f681, 0x6d9d6122, 0xfde5380c,
   0xa4beea44, 0x4bdecfa9, 0xf6bb4b60, 0xbebfbc70,
   0x289b7ec6, 0xeaa127fa, 0xd4ef3085, 0x04881d05,
   0xd9d4d039, 0xe6db99e5, 0x1fa27cf8, 0xc4ac5665,
   0xf4292244, 0x432aff97, 0xab9423a7, 0xfc93a039,
   0x655b59c3, 0x8f0ccc92, 0xffeff47d, 0x85845dd1,
   0x6fa87e4f, 0xfe2ce6e0, 0xa3014314, 0x4e0811a1,
   0xf7537e82, 0xbd3af235, 0x2ad7d2bb, 0xeb86d391]

/-- Per-round left-rotation amounts of MD5. -/
def md5S : List ℕ :=
  [7, 12, 17, 22, 7, 12, 17, 22, 7, 12, 17, 22, 7, 12, 17, 22,
   5, 9, 14, 20, 5, 9, 14, 20, 5, 9, 14, 20, 5, 9, 14, 20,
   4, 11, 16, 23, 4, 11, 16, 23, 4, 11, 16, 23, 4, 11, 16, 23,
   6, 10, 15, 21, 6, 10, 15, 21, 6, 10, 15, 21, 6, 10, 15, 21]

/-- Nonlinear mixing function and message index of round `i`. -/
def md5FG (i b c d : ℕ) : ℕ × ℕ :=
  if i < 16 then ((b &&& c) ||| (not32 b &&& d), i)
  else if i < 32 then ((d &&& b) ||| (not32 d &&& c), (5 * i + 1) % 16)
  else if i < 48 then (b ^^^ c ^^^ d, (3 * i + 5) % 16)
  else (c ^^^ (b ||| not32 d), (7 * i) % 16)

/-- One MD5 round on the running state `(a, b, c, d)`. -/
def md5Round (m : List ℕ) (st : ℕ × ℕ × ℕ × ℕ) (i : ℕ) : ℕ × ℕ × ℕ × ℕ :=
  let (a, b, c, d) := st
  let (f, g) := md5FG i b c d
  let fv := (f + a + md5K.getD i 0 + m.getD g 0) % M32
  (d, add32 b (rotl32 fv (md5S.getD i 0)), b, c)

/-- Little-endian 32-bit word from four bytes. -/
def leWord (a b c d : ℕ) : ℕ := a + 256 * b + 65536 * c + 16777216 * d

/-- Split a byte list into little-endian 32-bit words. -/
def toWords : List ℕ → List ℕ
  | a :: b :: c :: d :: t => leWord a b c d :: toWords t
  | _ => []

/-- Little-endian byte decomposition of a 64-bit length field. -/
def leBytes8 (n : ℕ) : List ℕ :=
  [n % 256, n / 256 % 256, n / 65536 % 256, n / 16777216 % 256,
   n / 4294967296 % 256, n / 1099511627776 % 256,
   n / 281474976710656 % 256, n / 72057594037927936 % 256]

/-- Little-endian byte decomposition of a 32-bit state word. -/
def leBytes4 (n : ℕ) : List ℕ :=
  [n % 256, n / 256 % 256, n / 65536 % 256, n / 16777216 % 256]

/-- MD5 padding: a 0x80 byte, zeros to 56 mod 64, then the bit length. -/
def padMsg (msg : List ℕ) : List ℕ :=
  let len := msg.length
  let z := (119 - len % 64) % 64
  msg ++ 128 :: List.replicate z 0 ++ leBytes8 (8 * len)

/-- MD5 digest of a byte list, as its 16 digest bytes. -/
def md5Digest (msg : List ℕ) : List ℕ :=
  let padded := padMsg msg
  let n := padded.length / 64
  let final := (List.range n).foldl
    (fun (st : ℕ × ℕ × ℕ × ℕ) i =>
      let m := toWords ((padded.drop (64 * i)).take 64)
      let (a0, b0, c0, d0) := st
      let (a, b, c, d) := (List.range 64).foldl (md5Round m) st
      (add32 a0 a, add32 b0 b, add32 c0 c, add32 d0 d))
    (0x67452301, 0xefcdab89, 0x98badcfe, 0x10325476)
  leBytes4 final.1 ++ leBytes4 final.2.1 ++ leBytes4 final.2.2.1 ++
    leBytes4 final.2.2.2

def hexChars : List Char := "0123456789abcdef".toList

/-- Two hex characters of one byte. -/
def byteHex (b : ℕ) : List Char := [hexChars.getD (b / 16) '0', hexChars.getD (b % 16) '0']

/-- Hex digest of a byte list, mirroring Python `hashlib.md5(x).hexdigest()`. -/
def hexdigest (msg : List ℕ) : Text :=
  (md5Digest msg).foldr (fun b acc => byteHex b ++ acc) []

/-- Numeric value of a lower-case hexadecimal character. -/
def hexVal (c : Char) : ℕ :=
  if 48 ≤ c.toNat ∧ c.toNat ≤ 57 then c.toNat - 48
  else if 97 ≤ c.toNat ∧ c.toNat ≤ 102 then c.toNat - 87
  else 0

/-- Base-16 interpretation of a hex string, mirroring Python
`int(x, 16)` on lower-case digest prefixes. -/
def parseHex (s : Text) : ℕ := s.foldl (fun a c => a * 16 + hexVal c) 0

/-- Raw records of the upstream shortage feed (the dictionaries iterated
by `transform_data`).  String fields are plain texts, with absence
modelled as the empty text as `record.get(k, '')` yields; the
therapeutic category is kept optional because `transform_data` indexes
it with `[0]` without a default. -/
structure RawRec where
  generic_name : Text
  company_name : Text
  presentation : Text
  update_type : Text
  update_date : Text
  availability : Text
  related_info : Text
  resolved_note : Text
  reason_for_shortage : Text
  status : Text
  change_date : Text
  date_discontinued : Text
  package_ndc : Text
  therapeutic_category : Option (List Text)
deriving DecidableEq, Repr

/-- The five key fields hashed by `generate_unique_id`
(fetch_fda_data.py lines 153-159). -/
def key_fields (r : RawRec) : List Text :=
  [r.generic_name, r.company_name, r.presentation, r.update_date, r.package_ndc]

/-- The hashed content `'|'.join(key_fields)` (fetch_fda_data.py line 162). -/
def recordContent (r : RawRec) : Text :=
  List.intercalate ['|'] (key_fields r)

/-- The base id `int(hashlib.md5(content.encode()).hexdigest()[:8], 16)`
(fetch_fda_data.py lines 163-164). -/
def base_id (r : RawRec) : ℕ :=
  parseHex ((hexdigest (encodeUtf8 (recordContent r))).take 8)

/-- Fuel-bounded version of the probing loop
`while unique_id in existing_ids: unique_id += 1`
(fetch_fda_data.py lines 167-169). -/
def probeAux : ℕ → Finset ℕ → ℕ → ℕ
  | 0, _, n => n
  | fuel + 1, s, n => if n ∈ s then probeAux fuel s (n + 1) else n

/-- The probing loop itself; `s.card + 1` units of fuel always suffice. -/
def probe (s : Finset ℕ) (n : ℕ) : ℕ := probeAux (s.card + 1) s n

/-- Embedding of `OpenFDAETL.generate_unique_id`
(fetch_fda_data.py lines 150-172): the probed id is returned and
registered into the existing-id set, whose mutation is made explicit by
returning the updated set. -/
def generate_unique_id (r : RawRec) (existing_ids : Finset ℕ) : ℕ × Finset ℕ :=
  let unique_id := probe existing_ids (base_id r)
  (unique_id, insert unique_id existing_ids)

/-- Classified records as produced by `transform_data`
(fetch_fda_data.py lines 180-202) and held in the staging and
historical tables. -/
structure Row where
  id : ℕ
  generic_name : Text
  company_name : Text
  presentation : Text
  update_type : Text
  update_date : Text
  availability : Text
  related_info : Text
  resolved_note : Text
  reason_for_shortage : Text
  therapeutic_category : Text
  status : Text
  change_date : Text
  date_discontinued : Text
  availability_status : Status
  ndc : Text
  created_at : Text
deriving DecidableEq, Repr

/-- Id column of a table. -/
def ids (s : List Row) : List ℕ := s.map Row.id

/-- Row found under id `k`, if any. -/
def find_row (s : List Row) (k : ℕ) : Option Row :=
  s.find? (fun r => r.id == k)

/-- Upsert of one row keyed by `id` (`on_conflict='id'`): overwrite the
row holding the same id, or append a fresh one. -/
def upsert_row (s : List Row) (r : Row) : List Row :=
  if s.any (fun p => p.id == r.id) then
    s.map (fun p => if p.id = r.id then r else p)
  else s ++ [r]

/-- Batch upsert keyed by `id`, row by row in batch order. -/
def upsert (s : List Row) (batch : List Row) : List Row :=
  batch.foldl upsert_row s

/-- Last row of a batch holding id `k`: the value that a batch upsert
leaves under `k`. -/
def find_batch (batch : List Row) (k : ℕ) : Option Row :=
  batch.reverse.find? (fun r => r.id == k)

/-- The two persistent tables of the pipeline. -/
structure DB where
  staging : List Row
  historical : List Row
deriving DecidableEq, Repr

/-- Fault-injection flags, one per exception path of the source: each
`true` flag makes the corresponding store call raise where the Python
code would catch (or propagate) an exception. -/
structure Faults where
  selectStagingFails : Bool
  upsertHistFails : Bool
  deleteStagingFails : Bool
  getIdsFails : Bool
  loadStagingFails : Bool
deriving DecidableEq, Repr

/-- The no-fault configuration. -/
def noFaults : Faults := ⟨false, false, false, false, false⟩

/-- Embedding of `OpenFDAETL.get_existing_ids`
(fetch_fda_data.py lines 139-148): the staging id column as a set; a
read failure is caught and degraded to the empty set. -/
def get_existing_ids (db : DB) (f : Faults) : Finset ℕ :=
  if f.getIdsFails then ∅ else (db.staging.map Row.id).toFinset

/-- Row construction of `transform_data` (fetch_fda_data.py
lines 180-202) for one raw record, given the assigned id and the first
therapeutic category. -/
def mk_row (mapping : List (Text × Status)) (now : Text) (r : RawRec)
    (uid : ℕ) (cat : Text) : Row :=
  { id := uid
    generic_name := r.generic_name
    company_name := r.company_name
    presentation := r.presentation
    update_type := r.update_type
    update_date := r.update_date
    availability := r.availability
    related_info := r.related_info
    resolved_note := r.resolved_note
    reason_for_shortage := r.reason_for_shortage
    therapeutic_category := cat
    status := r.status
    change_date := r.change_date
    date_discontinued := r.date_discontinued
    availability_status :=
      classify_availability_status mapping r.availability r.related_info r.status
    ndc := r.package_ndc
    created_at := now }

/-- Loop body of `transform_data` (fetch_fda_data.py lines 178-203):
ids are threaded through `generate_unique_id`; indexing
`record.get('therapeutic_category')[0]` raises (modelled as `none`) on a
missing or empty category, aborting the whole transform. -/
def transform_go (mapping : List (Text × Status)) (now : Text) :
    Finset ℕ → List RawRec → Option (List Row)
  | _, [] => some []
  | existing_ids, r :: t =>
      let (uid, existing') := generate_unique_id r existing_ids
      match r.therapeutic_category with
      | some (cat :: _) =>
          (transform_go mapping now existing' t).map
            (fun rows => mk_row mapping now r uid cat :: rows)
      | _ => none

/-- Embedding of `OpenFDAETL.transform_data`
(fetch_fda_data.py lines 174-205): the existing-id set is read at the
start of the call, from Staging only. -/
def transform_data (mapping : List (Text × Status)) (db : DB) (f : Faults)
    (now : Text) (raw_data : List RawRec) : Option (List Row) :=
  transform_go mapping now (get_existing_ids db f) raw_data

/-- Embedding of `OpenFDAETL.load_to_staging`
(fetch_fda_data.py lines 207-226): upsert of the transformed rows into
Staging keyed by id; an exception is caught and reported as `false`. -/
def load_to_staging (db : DB) (rows : List Row) (f : Faults) : Bool × DB :=
  if f.loadStagingFails then (false, db)
  else (true, ⟨upsert db.staging rows, db.historical⟩)

/-- Embedding of `OpenFDAETL.promote_staging_to_historical`
(fetch_fda_data.py lines 248-275).  The failure of any of the three
store calls (select staging, upsert historical, delete staging) raises,
is caught, and yields `false` with the state as of the raise point; the
staging clear `delete().neq('id', 0)` keeps any row whose id is 0. -/
def promote_staging_to_historical (db : DB) (f : Faults) : Bool × DB :=
  if f.selectStagingFails then (false, db)
  else if db.staging.isEmpty then (true, db)
  else if f.upsertHistFails then (false, db)
  else
    let db1 : DB := ⟨db.staging, upsert db.historical db.staging⟩
    if f.deleteStagingFails then (false, db1)
    else (true, ⟨db1.staging.filter (fun r => r.id == 0), db1.historical⟩)

/-- Pipeline stages recorded by a run, used to state which stages were
reached. -/
inductive Ev where
  | schemaCheck
  | promoteStep
  | fetchStep
  | transformRun
  | stagingUpsert
deriving DecidableEq, Repr

/-- Outcome of one run: `none` stands for an uncaught exception, the
final database state, and the trace of reached stages. -/
structure RunOut where
  res : Option Bool
  db : DB
  trace : List Ev
deriving DecidableEq, Repr

/-- Embedding of `OpenFDAETL.run_weekly_etl`
(fetch_fda_data.py lines 277-309).  The fetch result is passed in:
`none` stands for a fetch or JSON-parse failure (the source returns
`None` for both), `some []` for an empty result set.  The best-effort
schema check never affects the state. -/
def run_weekly_etl (mapping : List (Text × Status)) (db : DB) (f : Faults)
    (fetched : Option (List RawRec)) (now : Text) : RunOut :=
  match promote_staging_to_historical db f with
  | (false, db1) => ⟨some false, db1, [.schemaCheck, .promoteStep]⟩
  | (true, db1) =>
      match fetched with
      | none => ⟨some false, db1, [.schemaCheck, .promoteStep, .fetchStep]⟩
      | some [] => ⟨some true, db1, [.schemaCheck, .promoteStep, .fetchStep]⟩
      | some raw_data =>
          match transform_data mapping db1 f now raw_data with
          | none => ⟨none, db1, [.schemaCheck, .promoteStep, .fetchStep, .transformRun]⟩
          | some rows =>
              match load_to_staging db1 rows f with
              | (true, db2) =>
                  ⟨some true, db2,
                    [.schemaCheck, .promoteStep, .fetchStep, .transformRun, .stagingUpsert]⟩
              | (false, db2) =>
                  ⟨some false, db2,
                    [.schemaCheck, .promoteStep, .fetchStep, .transformRun, .stagingUpsert]⟩

/-- Modelled from the spec: per-drug status snapshots consumed by the
Episode Builder of §4.3, which is not part of `src/` (episodes are
materialized by an external SQL model).  Update dates are whole-day
numbers. -/
structure SnapRec where
  update_date : ℕ
  availability_status : Status
deriving DecidableEq, Repr

/-- Modelled from the spec: an availability episode of §3/§4.3. -/
structure Episode where
  episode_start_date : ℕ
  episode_end_date : ℕ
  availability_status : Status
  duration_days : ℕ
deriving DecidableEq, Repr

/-- Modelled from the spec: records sharing an identical update_date are
treated as a single boundary point, only the last such record in stable
order starts an episode boundary (§4.3). -/
def collapse_ties : List SnapRec → List SnapRec
  | [] => []
  | [r] => [r]
  | r :: r' :: t =>
      if r.update_date = r'.update_date then collapse_ties (r' :: t)
      else r :: collapse_ties (r' :: t)

/-- Modelled from the spec: episode construction over the tie-collapsed
snapshots; each episode ends at the next record's update_date, the last
at `now` (§4.3). -/
def episodes_go (now : ℕ) : List SnapRec → List Episode
  | [] => []
  | [r] => [⟨r.update_date, now, r.availability_status, now - r.update_date⟩]
  | r :: r' :: t =>
      ⟨r.update_date, r'.update_date, r.availability_status,
        r'.update_date - r.update_date⟩ :: episodes_go now (r' :: t)

/-- Modelled from the spec: `build_episodes(records) -> list[Episode]`
for one fixed drug, records already in stable time order (§4.3). -/
def build_episodes (now : ℕ) (records : List SnapRec) : List Episode :=
  episodes_go now (collapse_ties records)

/-- Shared concrete raw record with empty key fields and a one-element
therapeutic category. -/
def rawBlank : RawRec :=
  ⟨[], [], [], [], [], [], [], [], [], [], [], [], [], some [['X']]⟩

/-- Shared concrete raw record equal to `rawBlank` on the five key
fields but different in `update_type`. -/
def rawBlank2 : RawRec :=
  ⟨[], [], [], "weekly".toList, [], [], [], [], [], [], [], [], [], some [['X']]⟩

/-- Shared concrete staging row with a non-zero id. -/
def rowA : Row :=
  ⟨7, [], [], [], [], [], [], [], [], [], [], [], [], [], Status.unclear, [], []⟩

/-- Shared concrete staging row stored under id 0. -/
def rowZero : Row :=
  ⟨0, [], [], [], [], [], [], [], [], [], [], [], [], [], Status.unclear, [], []⟩

/-- Modelled from the spec: the existing-id set §5 asks for, the union
of the ids currently present in Historical and in Staging. -/
def spec_existing_ids (db : DB) : Finset ℕ :=
  (db.historical.map Row.id).toFinset ∪ (db.staging.map Row.id).toFinset

/-- Shared concrete historical row under id 5. -/
def rowH : Row :=
  ⟨5, [], [], [], [], [], [], [], [], [], [], [], [], [], Status.unclear, [], []⟩

/-- Shared concrete raw record with an empty therapeutic category. -/
def rawNoCat : RawRec :=
  ⟨[], [], [], [], [], [], [], [], [], [], [], [], [], some []⟩

example :
    classify_availability_status [] "Limited, discontinued".toList [] [] =
      Status.discontinued := by decide

example :
    classify_availability_status [] "Manufacturing delay reported".toList [] [] =
      Status.notAvailable := by decide

example :
    classify_availability_status [("xyz".toList, Status.available)]
      "  xyz ".toList "discontinued".toList [] = Status.available := by decide

example : classify_availability_status [] [] [] [] = Status.unclear := by decide

example :
    hexdigest (encodeUtf8 "abc".toList) =
      "900150983cd24fb0d6963f7d28e17f72".toList := by decide

theorem hexVal_lt (c : Char) : hexVal c < 16 := by
  unfold hexVal
  split_ifs with h1 h2 <;> omega

theorem parseHex_foldl_lt (s : Text) :
    ∀ a : ℕ, s.foldl (fun a c => a * 16 + hexVal c) a < (a + 1) * 16 ^ s.length := by
  induction s with
  | nil => intro a; simp
  | cons c t ih =>
      intro a
      have h1 := ih (a * 16 + hexVal c)
      have h2 : (a * 16 + hexVal c + 1) * 16 ^ t.length ≤ (a + 1) * 16 ^ (t.length + 1) := by
        have hc : a * 16 + hexVal c + 1 ≤ (a + 1) * 16 := by
          have := hexVal_lt c
          nlinarith
        calc (a * 16 + hexVal c + 1) * 16 ^ t.length
            ≤ ((a + 1) * 16) * 16 ^ t.length := Nat.mul_le_mul_right _ hc
          _ = (a + 1) * 16 ^ (t.length + 1) := by ring
      simpa [List.foldl] using lt_of_lt_of_le h1 h2

theorem parseHex_lt (s : Text) : parseHex s < 16 ^ s.length := by
  simpa [parseHex] using parseHex_foldl_lt s 0

theorem base_id_lt (r : RawRec) : base_id r < 2 ^ 32 := by
  have h1 := parseHex_lt ((hexdigest (encodeUtf8 (recordContent r))).take 8)
  have h2 : ((hexdigest (encodeUtf8 (recordContent r))).take 8).length ≤ 8 := by
    simp
  have h3 : (16 : ℕ) ^ ((hexdigest (encodeUtf8 (recordContent r))).take 8).length ≤ 16 ^ 8 :=
    Nat.pow_le_pow_right (by norm_num) h2
  have h4 : (16 : ℕ) ^ 8 = 2 ^ 32 := by norm_num
  have h0 : base_id r = parseHex ((hexdigest (encodeUtf8 (recordContent r))).take 8) := rfl
  omega

theorem probeAux_spec :
    ∀ (fuel : ℕ) (s : Finset ℕ) (n : ℕ), (s.filter (fun m => n ≤ m)).card < fuel →
      probeAux fuel s n ∉ s ∧ n ≤ probeAux fuel s n ∧
        ∀ k, n ≤ k → k < probeAux fuel s n → k ∈ s := by
  intro fuel
  induction fuel with
  | zero => intro s n h; omega
  | succ fuel ih =>
      intro s n h
      by_cases hn : n ∈ s
      · have hset : s.filter (fun m => n + 1 ≤ m) = (s.filter (fun m => n ≤ m)).erase n := by
          ext m
          simp only [Finset.mem_filter, Finset.mem_erase]
          constructor
          · intro ⟨hm, hle⟩; exact ⟨by omega, hm, by omega⟩
          · intro ⟨hne, hm, hle⟩; exact ⟨hm, by omega⟩
        have hmemf : n ∈ s.filter (fun m => n ≤ m) := by
          simp [Finset.mem_filter, hn]
        have hcard : (s.filter (fun m => n + 1 ≤ m)).card <
            (s.filter (fun m => n ≤ m)).card := by
          rw [hset]
          exact Finset.card_erase_lt_of_mem hmemf
        have h' : (s.filter (fun m => n + 1 ≤ m)).card < fuel := by omega
        obtain ⟨h1, h2, h3⟩ := ih s (n + 1) h'
        refine ⟨?_, ?_, ?_⟩
        · simpa [probeAux, hn] using h1
        · simp only [probeAux, hn, if_true]; omega
        · intro k hk1 hk2
          simp only [probeAux, hn, if_true] at hk2
          rcases Nat.eq_or_lt_of_le hk1 with heq | hlt
          · simpa [← heq] using hn
          · exact h3 k (by omega) hk2
      · simp only [probeAux, if_neg hn]
        exact ⟨hn, Nat.le_refl n, fun k hk1 hk2 => by omega⟩

theorem probe_spec (s : Finset ℕ) (n : ℕ) :
    probe s n ∉ s ∧ n ≤ probe s n ∧ ∀ k, n ≤ k → k < probe s n → k ∈ s :=
  probeAux_spec _ s n
    (lt_of_le_of_lt (Finset.card_filter_le s _) (Nat.lt_succ_self _))

theorem probe_of_not_mem (s : Finset ℕ) (n : ℕ) (h : n ∉ s) : probe s n = n := by
  simp [probe, probeAux, h]

theorem any_id_iff (s : List Row) (k : ℕ) :
    (s.any (fun p => p.id == k) = true) ↔ k ∈ ids s := by
  unfold ids
  rw [List.any_eq_true]
  constructor
  · rintro ⟨r, hr, hb⟩
    exact List.mem_map.mpr ⟨r, hr, by simpa using hb⟩
  · intro h
    obtain ⟨r, hr, hid⟩ := List.mem_map.mp h
    exact ⟨r, hr, by simp [hid]⟩

theorem find_row_cons (p : Row) (t : List Row) (k : ℕ) :
    find_row (p :: t) k = if p.id = k then some p else find_row t k := by
  by_cases h : p.id = k
  · rw [find_row, List.find?_cons_of_pos _ (by simp [h]), if_pos h]
  · rw [find_row, List.find?_cons_of_neg _ (by simp [h]), if_neg h]; rfl

theorem find_row_map_replace_self (s : List Row) (r : Row) :
    find_row (s.map (fun p => if p.id = r.id then r else p)) r.id =
      (find_row s r.id).map (fun _ => r) := by
  induction s with
  | nil => simp [find_row]
  | cons p t ih =>
      rw [List.map_cons]
      by_cases hp : p.id = r.id
      · rw [if_pos hp, find_row_cons, if_pos rfl, find_row_cons, if_pos hp]
        rfl
      · rw [if_neg hp, find_row_cons, if_neg hp, find_row_cons, if_neg hp]
        exact ih

theorem find_row_map_replace_ne (s : List Row) (r : Row) (k : ℕ) (hk : k ≠ r.id) :
    find_row (s.map (fun p => if p.id = r.id then r else p)) k = find_row s k := by
  induction s with
  | nil => simp [find_row]
  | cons p t ih =>
      rw [List.map_cons]
      by_cases hp : p.id = r.id
      · have h1 : ¬ r.id = k := by omega
        have h2 : ¬ p.id = k := by omega
        rw [if_pos hp, find_row_cons, if_neg h1, find_row_cons, if_neg h2]
        exact ih
      · rw [if_neg hp, find_row_cons, find_row_cons]
        by_cases hpk : p.id = k
        · rw [if_pos hpk, if_pos hpk]
        · rw [if_neg hpk, if_neg hpk]; exact ih

theorem find_row_append_single (s : List Row) (r : Row) (k : ℕ) :
    find_row (s ++ [r]) k =
      (find_row s k).or (if r.id = k then some r else none) := by
  induction s with
  | nil =>
      rw [List.nil_append, find_row_cons]
      by_cases h : r.id = k
      · rw [if_pos h, if_pos h]; rfl
      · rw [if_neg h, if_neg h]; rfl
  | cons p t ih =>
      rw [List.cons_append, find_row_cons, find_row_cons]
      by_cases hpk : p.id = k
      · rw [if_pos hpk, if_pos hpk]; rfl
      · rw [if_neg hpk, if_neg hpk]; exact ih

theorem find_row_eq_none_of_not_mem (s : List Row) (k : ℕ) (h : k ∉ ids s) :
    find_row s k = none := by
  rw [find_row, List.find?_eq_none]
  intro r hr
  simp only [beq_iff_eq]
  intro hid
  exact h (List.mem_map.mpr ⟨r, hr, hid⟩)

theorem find_row_isSome_of_mem (s : List Row) (k : ℕ) (h : k ∈ ids s) :
    (find_row s k).isSome := by
  obtain ⟨r, hr, hid⟩ := List.mem_map.mp h
  exact List.find?_isSome.mpr ⟨r, hr, by simp [hid]⟩

theorem find_upsert_row (s : List Row) (r : Row) (k : ℕ) :
    find_row (upsert_row s r) k = if k = r.id then some r else find_row s k := by
  unfold upsert_row
  by_cases hmem : (s.any fun p => p.id == r.id) = true
  · rw [if_pos hmem]
    by_cases hk : k = r.id
    · rw [if_pos hk, hk, find_row_map_replace_self]
      obtain ⟨v, hv⟩ := Option.isSome_iff_exists.mp
        (find_row_isSome_of_mem s r.id ((any_id_iff s r.id).mp hmem))
      rw [hv]; rfl
    · rw [if_neg hk]
      exact find_row_map_replace_ne s r k hk
  · rw [if_neg hmem, find_row_append_single]
    have hnone : find_row s r.id = none :=
      find_row_eq_none_of_not_mem s r.id
        (fun hc => hmem ((any_id_iff s r.id).mpr hc))
    by_cases hk : k = r.id
    · subst hk
      rw [if_pos rfl, hnone, if_pos rfl]
      rfl
    · have h1 : ¬ r.id = k := by omega
      rw [if_neg hk, if_neg h1]
      cases find_row s k <;> rfl

theorem ids_upsert_row_of_mem (s : List Row) (r : Row) (h : r.id ∈ ids s) :
    ids (upsert_row s r) = ids s := by
  unfold upsert_row
  rw [if_pos ((any_id_iff s r.id).mpr h)]
  unfold ids
  rw [List.map_map]
  apply List.map_congr_left
  intro p _
  by_cases hp : p.id = r.id
  · simp [hp]
  · simp [hp]

theorem ids_upsert_row_of_not_mem (s : List Row) (r : Row) (h : r.id ∉ ids s) :
    ids (upsert_row s r) = ids s ++ [r.id] := by
  unfold upsert_row
  rw [if_neg (fun hc => h ((any_id_iff s r.id).mp hc))]
  unfold ids
  rw [List.map_append]
  rfl

theorem length_upsert_row_of_mem (s : List Row) (r : Row) (h : r.id ∈ ids s) :
    (upsert_row s r).length = s.length := by
  unfold upsert_row
  rw [if_pos ((any_id_iff s r.id).mpr h)]
  exact List.length_map s _

theorem mem_ids_upsert_row (s : List Row) (r : Row) (k : ℕ) (h : k ∈ ids s) :
    k ∈ ids (upsert_row s r) := by
  by_cases hr : r.id ∈ ids s
  · rwa [ids_upsert_row_of_mem s r hr]
  · rw [ids_upsert_row_of_not_mem s r hr]
    exact List.mem_append_left _ h

theorem self_mem_ids_upsert_row (s : List Row) (r : Row) :
    r.id ∈ ids (upsert_row s r) := by
  by_cases hr : r.id ∈ ids s
  · rwa [ids_upsert_row_of_mem s r hr]
  · rw [ids_upsert_row_of_not_mem s r hr]
    exact List.mem_append_right _ (List.mem_singleton.mpr rfl)

theorem mem_ids_upsert (batch : List Row) :
    ∀ (s : List Row) (k : ℕ), k ∈ ids s → k ∈ ids (upsert s batch) := by
  induction batch with
  | nil => intro s k h; exact h
  | cons b t ih =>
      intro s k h
      exact ih (upsert_row s b) k (mem_ids_upsert_row s b k h)

theorem batch_ids_mem_upsert (batch : List Row) :
    ∀ (s : List Row) (r : Row), r ∈ batch → r.id ∈ ids (upsert s batch) := by
  induction batch with
  | nil => intro s r h; cases h
  | cons b t ih =>
      intro s r h
      rcases List.mem_cons.mp h with rfl | ht
      · exact mem_ids_upsert t (upsert_row s r) r.id (self_mem_ids_upsert_row s r)
      · exact ih (upsert_row s b) r ht

theorem ids_upsert_of_subset (batch : List Row) :
    ∀ s : List Row, (∀ r ∈ batch, r.id ∈ ids s) → ids (upsert s batch) = ids s := by
  induction batch with
  | nil => intro s _; rfl
  | cons b t ih =>
      intro s h
      have hb : b.id ∈ ids s := h b (List.mem_cons_self b t)
      have hs : ids (upsert_row s b) = ids s := ids_upsert_row_of_mem s b hb
      calc ids (upsert (upsert_row s b) t) = ids (upsert_row s b) := by
            refine ih (upsert_row s b) (fun r hr => ?_)
            rw [hs]
            exact h r (List.mem_cons_of_mem b hr)
        _ = ids s := hs

theorem length_upsert_of_subset (batch : List Row) :
    ∀ s : List Row, (∀ r ∈ batch, r.id ∈ ids s) →
      (upsert s batch).length = s.length := by
  induction batch with
  | nil => intro s _; rfl
  | cons b t ih =>
      intro s h
      have hb : b.id ∈ ids s := h b (List.mem_cons_self b t)
      have hs : ids (upsert_row s b) = ids s := ids_upsert_row_of_mem s b hb
      calc (upsert (upsert_row s b) t).length = (upsert_row s b).length := by
            refine ih (upsert_row s b) (fun r hr => ?_)
            rw [hs]
            exact h r (List.mem_cons_of_mem b hr)
        _ = s.length := length_upsert_row_of_mem s b hb

theorem find_batch_append_single (batch : List Row) (r : Row) (k : ℕ) :
    find_batch (batch ++ [r]) k =
      if r.id = k then some r else find_batch batch k := by
  unfold find_batch
  rw [List.reverse_append]
  by_cases h : r.id = k
  · rw [if_pos h]
    simp [List.find?_cons_of_pos, h]
  · rw [if_neg h]
    simp only [List.reverse_singleton, List.singleton_append]
    rw [List.find?_cons_of_neg _ (by simp [h])]

theorem find_row_upsert (batch : List Row) :
    ∀ (s : List Row) (k : ℕ),
      find_row (upsert s batch) k = (find_batch batch k).or (find_row s k) := by
  induction batch using List.reverseRecOn with
  | nil => intro s k; cases h : find_row s k <;> simp [upsert, find_batch, h]
  | append_singleton t r ih =>
      intro s k
      rw [upsert, List.foldl_append, List.foldl_cons, List.foldl_nil]
      rw [show List.foldl upsert_row s t = upsert s t from rfl]
      rw [find_upsert_row, find_batch_append_single, ih s k]
      by_cases hk : k = r.id
      · rw [if_pos hk, if_pos hk.symm]; rfl
      · rw [if_neg hk, if_neg (fun h => hk h.symm)]

theorem collapse_ties_head (x : SnapRec) (xs : List SnapRec) :
    ∃ (h : SnapRec) (ys : List SnapRec),
      collapse_ties (x :: xs) = h :: ys ∧ h.update_date = x.update_date := by
  induction xs generalizing x with
  | nil => exact ⟨x, [], rfl, rfl⟩
  | cons y t ih =>
      by_cases hd : x.update_date = y.update_date
      · obtain ⟨h, ys, heq, hdate⟩ := ih y
        exact ⟨h, ys, by rw [collapse_ties, if_pos hd]; exact heq, by omega⟩
      · exact ⟨x, collapse_ties (y :: t), by rw [collapse_ties, if_neg hd], rfl⟩

theorem collapse_ties_ne_nil (x : SnapRec) (xs : List SnapRec) :
    collapse_ties (x :: xs) ≠ [] := by
  obtain ⟨h, ys, heq, _⟩ := collapse_ties_head x xs
  rw [heq]
  exact List.cons_ne_nil h ys

theorem collapse_ties_sublist : ∀ l : List SnapRec, (collapse_ties l).Sublist l := by
  intro l
  induction l with
  | nil => exact List.Sublist.refl []
  | cons x xs ih =>
      cases xs with
      | nil => exact List.Sublist.refl [x]
      | cons y t =>
          rw [collapse_ties]
          by_cases hd : x.update_date = y.update_date
          · rw [if_pos hd]
            exact List.Sublist.cons x ih
          · rw [if_neg hd]
            exact List.Sublist.cons₂ x ih

theorem collapse_ties_chain_lt (l : List SnapRec)
    (h : List.Chain' (fun a b => a.update_date ≤ b.update_date) l) :
    List.Chain' (fun a b => a.update_date < b.update_date) (collapse_ties l) := by
  induction l with
  | nil => exact List.chain'_nil
  | cons x xs ih =>
      cases xs with
      | nil => simp [collapse_ties]
      | cons y t =>
          obtain ⟨hxy, hyt⟩ := List.chain'_cons.mp h
          rw [collapse_ties]
          by_cases hd : x.update_date = y.update_date
          · rw [if_pos hd]
            exact ih hyt
          · rw [if_neg hd]
            obtain ⟨hh, ys, heq, hdate⟩ := collapse_ties_head y t
            rw [heq]
            refine List.chain'_cons.mpr ⟨by omega, ?_⟩
            rw [← heq]
            exact ih hyt

theorem episodes_go_head (now : ℕ) (x : SnapRec) (xs : List SnapRec) :
    ∃ (e : Episode) (es : List Episode),
      episodes_go now (x :: xs) = e :: es ∧
        e.episode_start_date = x.update_date ∧
        e.availability_status = x.availability_status := by
  cases xs with
  | nil => exact ⟨⟨x.update_date, now, x.availability_status, now - x.update_date⟩, [], rfl, rfl, rfl⟩
  | cons y t =>
      exact ⟨⟨x.update_date, y.update_date, x.availability_status,
        y.update_date - x.update_date⟩, episodes_go now (y :: t), rfl, rfl, rfl⟩

theorem episodes_go_map_start (now : ℕ) :
    ∀ l : List SnapRec,
      (episodes_go now l).map Episode.episode_start_date = l.map SnapRec.update_date := by
  intro l
  induction l with
  | nil => rfl
  | cons x xs ih =>
      cases xs with
      | nil => rfl
      | cons y t => simpa [episodes_go] using ih

theorem episodes_go_map_status (now : ℕ) :
    ∀ l : List SnapRec,
      (episodes_go now l).map Episode.availability_status =
        l.map SnapRec.availability_status := by
  intro l
  induction l with
  | nil => rfl
  | cons x xs ih =>
      cases xs with
      | nil => rfl
      | cons y t => simpa [episodes_go] using ih

theorem episodes_go_chain (now : ℕ) :
    ∀ l : List SnapRec,
      List.Chain' (fun e e' => e.episode_end_date = e'.episode_start_date)
        (episodes_go now l) := by
  intro l
  induction l with
  | nil => exact List.chain'_nil
  | cons x xs ih =>
      cases xs with
      | nil => simp [episodes_go]
      | cons y t =>
          rw [episodes_go]
          obtain ⟨e, es, heq, hstart, _⟩ := episodes_go_head now y t
          rw [heq]
          refine List.chain'_cons.mpr ⟨by rw [hstart], ?_⟩
          rw [← heq]
          exact ih

theorem episodes_go_last (now : ℕ) :
    ∀ l : List SnapRec, ∀ e : Episode,
      (episodes_go now l).getLast? = some e → e.episode_end_date = now := by
  intro l
  induction l with
  | nil => intro e h; simp [episodes_go] at h
  | cons x xs ih =>
      cases xs with
      | nil =>
          intro e h
          simp only [episodes_go, List.getLast?_singleton, Option.some.injEq] at h
          rw [← h]
      | cons y t =>
          intro e h
          rw [episodes_go] at h
          obtain ⟨e0, es, heq, _, _⟩ := episodes_go_head now y t
          rw [heq, List.getLast?_cons_cons] at h
          exact ih e (by rw [heq]; exact h)

theorem episodes_go_bounds (now : ℕ) :
    ∀ l : List SnapRec,
      List.Chain' (fun a b => a.update_date < b.update_date) l →
      (∀ r ∈ l, r.update_date ≤ now) →
      ∀ e ∈ episodes_go now l,
        e.episode_start_date ≤ e.episode_end_date ∧
          e.duration_days = e.episode_end_date - e.episode_start_date := by
  intro l
  induction l with
  | nil => intro _ _ e he; cases he
  | cons x xs ih =>
      cases xs with
      | nil =>
          intro _ hle e he
          rcases List.mem_singleton.mp he with rfl
          exact ⟨hle x (List.mem_singleton.mpr rfl), rfl⟩
      | cons y t =>
          intro hchain hle e he
          obtain ⟨hxy, hyt⟩ := List.chain'_cons.mp hchain
          rw [episodes_go] at he
          rcases List.mem_cons.mp he with rfl | he'
          · exact ⟨Nat.le_of_lt hxy, rfl⟩
          · exact ih hyt (fun r hr => hle r (List.mem_cons_of_mem x hr)) e he'

theorem classify_mapping_hit (mapping : List (Text × Status)) (a r s : Text)
    (ha : trimText a ≠ []) (st : Status)
    (hst : lookupMapping mapping (trimText a) = some st) :
    classify_availability_status mapping a r s = st := by
  have hne : (trimText a).isEmpty = false := by
    cases h : trimText a
    · exact absurd h ha
    · rfl
  simp [classify_availability_status, hne, hst]

theorem classify_mapping_miss (mapping : List (Text × Status)) (a r s : Text)
    (h : trimText a = [] ∨ lookupMapping mapping (trimText a) = none) :
    classify_availability_status mapping a r s =
      keywordClassify (lowerText (joinedFields a r s)) := by
  rcases h with h | h
  · simp [classify_availability_status, h]
  · by_cases he : (trimText a).isEmpty = true
    · simp [classify_availability_status, he]
    · simp [classify_availability_status, he, h]

/-- C4: `classify` is a total function matching the spec's reference
definition: it always returns one of the five statuses; a trimmed
availability text found verbatim in the override mapping is returned
immediately, bypassing keywords; otherwise the lower-cased join of the
three fields runs through the keyword categories in the fixed precedence
discontinued, not available, limited availability, available, first
match wins, default unclear; in particular "Limited, discontinued"
classifies as discontinued and "Manufacturing delay reported" as not
available. -/
theorem C4_classify_total_precedence :
    (∀ (mapping : List (Text × Status)) (a r s : Text), trimText a ≠ [] →
      ∀ st, lookupMapping mapping (trimText a) = some st →
        classify_availability_status mapping a r s = st) ∧
    (∀ (mapping : List (Text × Status)) (a r s : Text),
      trimText a = [] ∨ lookupMapping mapping (trimText a) = none →
        classify_availability_status mapping a r s =
          keywordClassify (lowerText (joinedFields a r s))) ∧
    (∀ t, hasAnyPat discontinuedPats t = true →
      keywordClassify t = Status.discontinued) ∧
    (∀ t, hasAnyPat discontinuedPats t = false →
      hasAnyPat notAvailablePats t = true →
        keywordClassify t = Status.notAvailable) ∧
    (∀ t, hasAnyPat discontinuedPats t = false →
      hasAnyPat notAvailablePats t = false → hasAnyPat limitedPats t = true →
        keywordClassify t = Status.limitedAvailability) ∧
    (∀ t, hasAnyPat discontinuedPats t = false →
      hasAnyPat notAvailablePats t = false → hasAnyPat limitedPats t = false →
        hasAnyPat availablePats t = true → keywordClassify t = Status.available) ∧
    (∀ t, hasAnyPat discontinuedPats t = false →
      hasAnyPat notAvailablePats t = false → hasAnyPat limitedPats t = false →
        hasAnyPat availablePats t = false → keywordClassify t = Status.unclear) ∧
    classify_availability_status [] "Limited, discontinued".toList [] [] =
      Status.discontinued ∧
    classify_availability_status [] "Manufacturing delay reported".toList [] [] =
      Status.notAvailable := by
  refine ⟨classify_mapping_hit, classify_mapping_miss, ?_, ?_, ?_, ?_, ?_, ?_, ?_⟩
  · intro t h; simp [keywordClassify, h]
  · intro t h1 h2; simp [keywordClassify, h1, h2]
  · intro t h1 h2 h3; simp [keywordClassify, h1, h2, h3]
  · intro t h1 h2 h3 h4; simp [keywordClassify, h1, h2, h3, h4]
  · intro t h1 h2 h3 h4; simp [keywordClassify, h1, h2, h3, h4]
  · decide
  · decide

/-- Witness for C4: a mapping hit on a padded availability text bypasses
the keyword rules even though the other fields contain keyword text. -/
theorem C4_witness :
    classify_availability_status [("xyz".toList, Status.available)]
      "  xyz  ".toList "discontinued".toList "shortage".toList =
      Status.available :=
  C4_classify_total_precedence.1 [("xyz".toList, Status.available)]
    "  xyz  ".toList "discontinued".toList "shortage".toList (by decide)
    Status.available (by decide)

/-- C5: `generate_unique_id` is deterministic and collision-resolving:
the base id is the first 8 hex characters of the MD5 of the joined five
key fields, read as an unsigned integer below 2^32; identical key fields
give identical base ids; with an empty existing-id set the base id is
returned; otherwise the smallest free integer at or above the base id is
found by linear probing; the returned id was free and is registered into
the existing-id set. -/
theorem C5_generate_unique_id_spec :
    (∀ r r' : RawRec, key_fields r = key_fields r' → base_id r = base_id r') ∧
    (∀ r : RawRec, base_id r < 2 ^ 32) ∧
    (∀ r : RawRec, (generate_unique_id r ∅).1 = base_id r) ∧
    (∀ (r : RawRec) (S : Finset ℕ),
      (generate_unique_id r S).1 ∉ S ∧
      (generate_unique_id r S).2 = insert (generate_unique_id r S).1 S ∧
      base_id r ≤ (generate_unique_id r S).1 ∧
      ∀ k, base_id r ≤ k → k < (generate_unique_id r S).1 → k ∈ S) := by
  refine ⟨?_, base_id_lt, ?_, ?_⟩
  · intro r r' h
    unfold base_id recordContent
    rw [h]
  · intro r
    exact probe_of_not_mem ∅ (base_id r) (Finset.not_mem_empty _)
  · intro r S
    obtain ⟨h1, h2, h3⟩ := probe_spec S (base_id r)
    exact ⟨h1, rfl, h2, h3⟩

/-- Witness for C5: two records that agree on the five key fields but
differ in `update_type` get the same base id, and the id returned
against the empty set was not registered before the call. -/
theorem C5_witness :
    base_id rawBlank = base_id rawBlank2 ∧
      (generate_unique_id rawBlank ∅).1 ∉ (∅ : Finset ℕ) :=
  ⟨C5_generate_unique_id_spec.1 rawBlank rawBlank2 rfl,
    (C5_generate_unique_id_spec.2.2.2 rawBlank ∅).1⟩

/-- C1: promotion is atomic with respect to Historical-upsert failure:
when the staging read succeeded, Staging is non-empty and the Historical
upsert fails, the promotion reports failure and leaves both stores
exactly as they were; and any deletion of a staging row can only happen
after the Historical upsert has succeeded and its result is committed. -/
theorem C1_promotion_atomic :
    (∀ (db : DB) (f : Faults), f.selectStagingFails = false →
      f.upsertHistFails = true → db.staging ≠ [] →
      promote_staging_to_historical db f = (false, db)) ∧
    (∀ (db : DB) (f : Faults) (r : Row), r ∈ db.staging →
      r ∉ (promote_staging_to_historical db f).2.staging →
      f.upsertHistFails = false ∧
        (promote_staging_to_historical db f).2.historical =
          upsert db.historical db.staging) := by
  constructor
  · intro db f hs hu hne
    have hemp : db.staging.isEmpty = false := by
      cases h : db.staging
      · exact absurd h hne
      · rfl
    simp [promote_staging_to_historical, hs, hu, hemp]
  · intro db f r hr hnr
    rcases f with ⟨sf, uf, df, gf, lf⟩
    cases sf
    · cases hemp : db.staging.isEmpty
      · cases uf
        · cases df
          · refine ⟨rfl, ?_⟩
            simp [promote_staging_to_historical, hemp]
          · refine ⟨rfl, ?_⟩
            simp [promote_staging_to_historical, hemp]
        · exact absurd hr (by simpa [promote_staging_to_historical, hemp] using hnr)
      · rw [List.isEmpty_iff.mp hemp] at hr
        cases hr
    · exact absurd hr (by simpa [promote_staging_to_historical] using hnr)

/-- Witness for C1: a failing Historical upsert over a one-row staging
store returns failure and the unchanged database. -/
theorem C1_witness :
    promote_staging_to_historical ⟨[rowA], []⟩ ⟨false, true, false, false, false⟩ =
      (false, ⟨[rowA], []⟩) :=
  C1_promotion_atomic.1 ⟨[rowA], []⟩ ⟨false, true, false, false, false⟩ rfl rfl
    (by simp)

/-- C2: re-promotion is idempotent: upserting a batch into Historical
keyed by id and then upserting the same batch again yields a Historical
store with the same row count, the same id column and the same row under
every id as after the first upsert — no duplicate row is created for an
id already present. -/
theorem C2_upsert_idempotent (historical batch : List Row) :
    (upsert (upsert historical batch) batch).length =
      (upsert historical batch).length ∧
    ids (upsert (upsert historical batch) batch) = ids (upsert historical batch) ∧
    ∀ k, find_row (upsert (upsert historical batch) batch) k =
      find_row (upsert historical batch) k := by
  have hsub : ∀ r ∈ batch, r.id ∈ ids (upsert historical batch) :=
    fun r hr => batch_ids_mem_upsert batch historical r hr
  refine ⟨length_upsert_of_subset batch _ hsub, ids_upsert_of_subset batch _ hsub, ?_⟩
  intro k
  rw [find_row_upsert, find_row_upsert]
  cases find_batch batch k <;> rfl

/-- C9: a fully successful promotion deletes exactly the staging rows
whose id is non-zero (`delete().neq('id', 0)`): every staging row with a
non-zero id is removed, and any staging row stored under id 0 survives
the clear. -/
theorem C9_staging_clear_keeps_id_zero (db : DB) (f : Faults)
    (hs : f.selectStagingFails = false) (hu : f.upsertHistFails = false)
    (hd : f.deleteStagingFails = false) :
    (promote_staging_to_historical db f).2.staging =
      db.staging.filter (fun r => r.id == 0) ∧
    (∀ r ∈ db.staging, r.id = 0 → r ∈ (promote_staging_to_historical db f).2.staging) ∧
    (∀ r ∈ db.staging, r.id ≠ 0 →
      r ∉ (promote_staging_to_historical db f).2.staging) := by
  have hmain : (promote_staging_to_historical db f).2.staging =
      db.staging.filter (fun r => r.id == 0) := by
    cases hemp : db.staging.isEmpty
    · simp [promote_staging_to_historical, hs, hu, hd, hemp]
    · rw [List.isEmpty_iff.mp hemp]
      simp [promote_staging_to_historical, hs, List.isEmpty_iff.mp hemp]
  refine ⟨hmain, ?_, ?_⟩
  · intro r hr h0
    rw [hmain]
    exact List.mem_filter.mpr ⟨hr, by simp [h0]⟩
  · intro r hr h0 hmem
    rw [hmain] at hmem
    exact h0 (by simpa using (List.mem_filter.mp hmem).2)

/-- Witness for C9: promoting a staging store holding one row under id 0
and one under id 7 clears only the id-7 row; the id-0 row stays in
Staging. -/
theorem C9_witness :
    (promote_staging_to_historical ⟨[rowZero, rowA], []⟩ noFaults).2.staging =
      [rowZero] := by
  have h := (C9_staging_clear_keeps_id_zero ⟨[rowZero, rowA], []⟩ noFaults
    rfl rfl rfl).1
  rw [h]
  decide

/-- Counterexample to C3: with id 5 present in Historical and Staging
empty, the id set actually loaded by `get_existing_ids` is empty — it is
not the union of Historical and Staging ids, because only the staging
table is queried. -/
theorem C3_counterexample :
    get_existing_ids ⟨[], [rowH]⟩ noFaults ≠ spec_existing_ids ⟨[], [rowH]⟩ ∧
    5 ∈ spec_existing_ids ⟨[], [rowH]⟩ ∧
    5 ∉ get_existing_ids ⟨[], [rowH]⟩ noFaults := by
  refine ⟨?_, by decide, by decide⟩
  decide

/-- C3 as amended: the existing-id set is recomputed from the database
state passed to each transform call (never cached), but it holds exactly
the ids currently present in Staging — ids present only in Historical
are not consulted. -/
theorem C3_amended_staging_only (db : DB) (f : Faults)
    (hf : f.getIdsFails = false) :
    ∀ k, k ∈ get_existing_ids db f ↔ k ∈ ids db.staging := by
  intro k
  simp [get_existing_ids, hf, ids]

/-- Witness for C3 as amended: a staging row under id 5 is seen by
`get_existing_ids`. -/
theorem C3_witness : 5 ∈ get_existing_ids ⟨[rowH], []⟩ noFaults :=
  (C3_amended_staging_only ⟨[rowH], []⟩ noFaults rfl 5).mpr (by decide)

/-- C7: on fetch or parse failure (the fetch collaborator returned
`None`), the run aborts with a failure result, the state committed by
the preceding promotion is kept exactly, and neither the transform stage
nor the staging upsert is reached. -/
theorem C7_fetch_failure_aborts (mapping : List (Text × Status)) (db : DB)
    (f : Faults) (now : Text) (db1 : DB)
    (hp : promote_staging_to_historical db f = (true, db1)) :
    run_weekly_etl mapping db f none now =
      ⟨some false, db1, [Ev.schemaCheck, Ev.promoteStep, Ev.fetchStep]⟩ ∧
    Ev.transformRun ∉ (run_weekly_etl mapping db f none now).trace ∧
    Ev.stagingUpsert ∉ (run_weekly_etl mapping db f none now).trace ∧
    (run_weekly_etl mapping db f none now).db = db1 := by
  have hrun : run_weekly_etl mapping db f none now =
      ⟨some false, db1, [Ev.schemaCheck, Ev.promoteStep, Ev.fetchStep]⟩ := by
    unfold run_weekly_etl
    rw [hp]
  rw [hrun]
  exact ⟨rfl, by simp, by simp, rfl⟩

/-- Witness for C7: with empty stores and no faults, a failed fetch
leaves the committed state untouched and reports the run failed. -/
theorem C7_witness :
    run_weekly_etl [] ⟨[], []⟩ noFaults none [] =
      ⟨some false, ⟨[], []⟩, [Ev.schemaCheck, Ev.promoteStep, Ev.fetchStep]⟩ :=
  (C7_fetch_failure_aborts [] ⟨[], []⟩ noFaults [] ⟨[], []⟩ rfl).1

/-- C6 as amended: a persistence failure in the promotion step or in the
staging upsert aborts the run at that point with a failure result; but a
failure while reading the existing-id set is caught inside
`get_existing_ids`, degraded to the empty id set, and the run continues
(and can even succeed). -/
theorem C6_persistence_failure_propagation :
    (∀ (mapping : List (Text × Status)) (db : DB) (f : Faults)
        (fetched : Option (List RawRec)) (now : Text) (db1 : DB),
      promote_staging_to_historical db f = (false, db1) →
        run_weekly_etl mapping db f fetched now =
          ⟨some false, db1, [Ev.schemaCheck, Ev.promoteStep]⟩) ∧
    (∀ (mapping : List (Text × Status)) (db : DB) (f : Faults) (raw0 : RawRec)
        (raws : List RawRec) (now : Text) (db1 : DB) (rows : List Row),
      promote_staging_to_historical db f = (true, db1) →
      transform_data mapping db1 f now (raw0 :: raws) = some rows →
      f.loadStagingFails = true →
        (run_weekly_etl mapping db f (some (raw0 :: raws)) now).res = some false) ∧
    (∀ (mapping : List (Text × Status)) (db : DB) (f : Faults) (raw0 : RawRec)
        (raws : List RawRec) (now : Text) (db1 : DB) (rows : List Row),
      promote_staging_to_historical db f = (true, db1) →
      transform_data mapping db1 f now (raw0 :: raws) = some rows →
      f.loadStagingFails = false →
        (run_weekly_etl mapping db f (some (raw0 :: raws)) now).res = some true) := by
  refine ⟨?_, ?_, ?_⟩
  · intro mapping db f fetched now db1 hp
    unfold run_weekly_etl
    rw [hp]
  · intro mapping db f raw0 raws now db1 rows hp ht hl
    unfold run_weekly_etl
    rw [hp]
    simp [ht, load_to_staging, hl]
  · intro mapping db f raw0 raws now db1 rows hp ht hl
    unfold run_weekly_etl
    rw [hp]
    simp [ht, load_to_staging, hl]

/-- Witness for C6 as amended: a promotion that fails on the staging
read aborts the whole run with a failure result and an unchanged
database. -/
theorem C6_witness :
    run_weekly_etl [] ⟨[rowA], []⟩ ⟨true, false, false, false, false⟩ none [] =
      ⟨some false, ⟨[rowA], []⟩, [Ev.schemaCheck, Ev.promoteStep]⟩ :=
  C6_persistence_failure_propagation.1 [] ⟨[rowA], []⟩
    ⟨true, false, false, false, false⟩ none [] ⟨[rowA], []⟩ rfl

/-- Counterexample to C6 as stated: with a failing existing-id read
(`getIdsFails`), non-empty fetched data and no other fault, the run
still completes and reports success — the id-read persistence failure
does not abort the run. -/
theorem C6_counterexample :
    (⟨false, false, false, true, false⟩ : Faults).getIdsFails = true ∧
    (run_weekly_etl [] ⟨[], []⟩ ⟨false, false, false, true, false⟩
        (some [rawBlank]) []).res = some true := by
  exact ⟨rfl, by decide⟩

theorem transform_go_total (mapping : List (Text × Status)) (now : Text) :
    ∀ (raws : List RawRec) (S : Finset ℕ),
      (∀ r ∈ raws, ∃ c cs, r.therapeutic_category = some (c :: cs)) →
      ∃ rows, transform_go mapping now S raws = some rows ∧
        rows.length = raws.length ∧
        List.Forall₂ (fun (raw : RawRec) (row : Row) => ∀ c cs,
          raw.therapeutic_category = some (c :: cs) →
            row.therapeutic_category = c) raws rows := by
  intro raws
  induction raws with
  | nil => intro S _; exact ⟨[], rfl, rfl, List.Forall₂.nil⟩
  | cons r t ih =>
      intro S h
      obtain ⟨c, cs, hc⟩ := h r (List.mem_cons_self r t)
      obtain ⟨rows, hrows, hlen, hfa⟩ :=
        ih (generate_unique_id r S).2 (fun x hx => h x (List.mem_cons_of_mem r hx))
      refine ⟨mk_row mapping now r (generate_unique_id r S).1 c :: rows, ?_,
        by simp [hlen], ?_⟩
      · simp [transform_go, hc, hrows]
      · refine List.Forall₂.cons ?_ hfa
        intro c' cs' h'
        rw [hc] at h'
        have : c = c' := by
          injection h' with h''
          exact (List.cons.injEq _ _ _ _ ▸ h'').1
        rw [← this]
        rfl

theorem transform_go_none (mapping : List (Text × Status)) (now : Text) :
    ∀ (raws : List RawRec) (S : Finset ℕ) (r : RawRec), r ∈ raws →
      (r.therapeutic_category = none ∨ r.therapeutic_category = some []) →
      transform_go mapping now S raws = none := by
  intro raws
  induction raws with
  | nil => intro S r hr; cases hr
  | cons x t ih =>
      intro S r hr hbad
      rcases List.mem_cons.mp hr with rfl | ht
      · rcases hbad with h | h <;> simp [transform_go, h]
      · cases hx : x.therapeutic_category with
        | none => simp [transform_go, hx]
        | some l =>
            cases l with
            | nil => simp [transform_go, hx]
            | cons c cs =>
                simp [transform_go, hx, ih (generate_unique_id x S).2 r ht hbad]

/-- C10: `transform_data` is defined only for raw records with a
non-empty therapeutic category: under that precondition it produces one
row per record whose therapeutic_category is the first element of the
raw record's list; any input containing a record with a missing or empty
category makes the whole transform raise (modelled as `none`) — there is
no error-result branch. -/
theorem C10_transform_category_safety (mapping : List (Text × Status))
    (db : DB) (f : Faults) (now : Text) :
    (∀ raws : List RawRec,
      (∀ r ∈ raws, ∃ c cs, r.therapeutic_category = some (c :: cs)) →
      ∃ rows, transform_data mapping db f now raws = some rows ∧
        rows.length = raws.length ∧
        List.Forall₂ (fun (raw : RawRec) (row : Row) => ∀ c cs,
          raw.therapeutic_category = some (c :: cs) →
            row.therapeutic_category = c) raws rows) ∧
    (∀ (raws : List RawRec) (r : RawRec), r ∈ raws →
      (r.therapeutic_category = none ∨ r.therapeutic_category = some []) →
      transform_data mapping db f now raws = none) := by
  constructor
  · intro raws h
    exact transform_go_total mapping now raws (get_existing_ids db f) h
  · intro raws r hr hbad
    exact transform_go_none mapping now raws (get_existing_ids db f) r hr hbad

/-- Witness for C10: a singleton input with a one-element category
transforms successfully, and one with an empty category raises. -/
theorem C10_witness :
    transform_data [] ⟨[], []⟩ noFaults [] [rawBlank] ≠ none ∧
    transform_data [] ⟨[], []⟩ noFaults [] [rawNoCat] = none := by
  constructor
  · obtain ⟨rows, hrows, _, _⟩ :=
      (C10_transform_category_safety [] ⟨[], []⟩ noFaults []).1 [rawBlank]
        (by
          intro r hr
          rcases List.mem_singleton.mp hr with rfl
          exact ⟨['X'], [], rfl⟩)
    simp [hrows]
  · exact (C10_transform_category_safety [] ⟨[], []⟩ noFaults []).2 [rawNoCat]
      rawNoCat (List.mem_singleton.mpr rfl) (Or.inr rfl)

/-- C8: for a fixed drug and a non-empty time-ordered snapshot list,
`build_episodes` partitions time: episodes are non-empty, each starts at
its (tie-collapsed) record's update_date and carries its status, each
episode's end equals the next episode's start, the final episode ends at
`now`, and every duration is the exact whole-day difference of its
bounds; three records at t0 < t1 < t2 yield exactly the episodes
[t0,t1), [t1,t2), [t2,now). -/
theorem C8_build_episodes_partition :
    (∀ (now : ℕ) (recs : List SnapRec), recs ≠ [] →
      List.Chain' (fun a b => a.update_date ≤ b.update_date) recs →
      (∀ r ∈ recs, r.update_date ≤ now) →
      build_episodes now recs ≠ [] ∧
      (build_episodes now recs).map Episode.episode_start_date =
        (collapse_ties recs).map SnapRec.update_date ∧
      (build_episodes now recs).map Episode.availability_status =
        (collapse_ties recs).map SnapRec.availability_status ∧
      List.Chain' (fun e e' => e.episode_end_date = e'.episode_start_date)
        (build_episodes now recs) ∧
      (∀ e, (build_episodes now recs).getLast? = some e →
        e.episode_end_date = now) ∧
      (∀ e ∈ build_episodes now recs,
        e.episode_start_date ≤ e.episode_end_date ∧
          e.duration_days = e.episode_end_date - e.episode_start_date)) ∧
    (∀ (now t0 t1 t2 : ℕ) (s0 s1 s2 : Status), t0 < t1 → t1 < t2 → t2 ≤ now →
      build_episodes now [⟨t0, s0⟩, ⟨t1, s1⟩, ⟨t2, s2⟩] =
        [⟨t0, t1, s0, t1 - t0⟩, ⟨t1, t2, s1, t2 - t1⟩,
          ⟨t2, now, s2, now - t2⟩]) := by
  constructor
  · intro now recs hne hchain hle
    obtain ⟨x, xs, rfl⟩ := List.exists_cons_of_ne_nil hne
    have hclt := collapse_ties_chain_lt (x :: xs) hchain
    have hcle : ∀ r ∈ collapse_ties (x :: xs), r.update_date ≤ now :=
      fun r hr => hle r ((collapse_ties_sublist (x :: xs)).subset hr)
    refine ⟨?_, episodes_go_map_start now _, episodes_go_map_status now _,
      episodes_go_chain now _, episodes_go_last now _,
      episodes_go_bounds now _ hclt hcle⟩
    obtain ⟨h, ys, heq, _⟩ := collapse_ties_head x xs
    obtain ⟨e, es, heq2, _, _⟩ := episodes_go_head now h ys
    rw [build_episodes, heq, heq2]
    exact List.cons_ne_nil e es
  · intro now t0 t1 t2 s0 s1 s2 h01 h12 h2n
    have hne01 : ¬ (⟨t0, s0⟩ : SnapRec).update_date = (⟨t1, s1⟩ : SnapRec).update_date := by
      simp; omega
    have hne12 : ¬ (⟨t1, s1⟩ : SnapRec).update_date = (⟨t2, s2⟩ : SnapRec).update_date := by
      simp; omega
    rw [build_episodes, collapse_ties, if_neg hne01, collapse_ties, if_neg hne12]
    rfl

/-- Witness for C8: three snapshots at days 0, 2, 5 with `now` at day 9
yield the three expected episodes with their exact day durations. -/
theorem C8_witness :
    build_episodes 9
        [⟨0, Status.available⟩, ⟨2, Status.notAvailable⟩, ⟨5, Status.available⟩] =
      [⟨0, 2, Status.available, 2⟩, ⟨2, 5, Status.notAvailable, 3⟩,
        ⟨5, 9, Status.available, 4⟩] :=
  C8_build_episodes_partition.2 9 0 2 5 Status.available Status.notAvailable
    Status.available (by decide) (by decide) (by decide)

end DrugShortage
